import Mathlib

/-!
Verification of the Db2 `%sql` macro engine and statement-dispatch protocol
documented by the `db2appdev` notebooks (`Db2_Jupyter_Macros.ipynb`,
`Db2_Using_Prepared_Statements.ipynb`, and the stored-procedure notebook).
The notebooks document the engine implemented in `db2.ipynb`, which is not
part of this repository snapshot; the engine is therefore modelled here from
the specification, component by component: tokenizer, variable scope and
substitution, macro expander (echo / exit / return / var / if-else-endif),
the `?*N` shorthand expansion with parameter counting, the prepared-statement
session (PREPARE / EXECUTE / COMMIT [HOLD]), and the statement dispatcher.
-/

namespace Db2Spec

/-- The single-quote character, written by code point to keep source text
plain. -/
def sq : Char := Char.ofNat 39

/-- The double-quote character, written by code point. -/
def dq : Char := Char.ofNat 34

/-- Modelled from the spec: quote characters recognised by the tokenizer of
`db2.ipynb` (absent from src/): a token may be enclosed in single or double
quotes. -/
def isQuoteChar (c : Char) : Bool := c = dq || c = sq

/-- Modelled from the spec: the quote-aware token scanner of `db2.ipynb`
(absent from src/).  State: the remaining characters, the open quote
character (if inside a quoted region) and the current token's characters in
reverse.  Splits on unquoted blanks; quotes are retained in the token text
and blanks inside a quoted region do not split the token. -/
def tokAux : List Char → Option Char → List Char → List String
  | [], none, cur => if cur = [] then [] else [String.mk cur.reverse]
  | [], some _, cur => [String.mk cur.reverse]
  | c :: rest, none, cur =>
      if c = ' ' then
        if cur = [] then tokAux rest none []
        else String.mk cur.reverse :: tokAux rest none []
      else if isQuoteChar c then tokAux rest (some c) (c :: cur)
      else tokAux rest none (c :: cur)
  | c :: rest, some q, cur =>
      if c = q then tokAux rest none (c :: cur)
      else tokAux rest (some q) (c :: cur)

/-- Modelled from the spec: `tokenize(line)` of `db2.ipynb` (absent from
src/) — split a command line into quote-aware tokens. -/
def tokenize (s : String) : List String := tokAux s.data none []

/-- The decimal digit character for a value `0`–`9`. -/
def digitChar : Nat → Char
  | 0 => '0'
  | 1 => '1'
  | 2 => '2'
  | 3 => '3'
  | 4 => '4'
  | 5 => '5'
  | 6 => '6'
  | 7 => '7'
  | 8 => '8'
  | 9 => '9'
  | _ => '0'

/-- Decimal rendering of a natural number, fuel-indexed so that it is
structurally recursive (the fuel bounds the recursion depth). -/
def natToCharsAux : Nat → Nat → List Char
  | 0, _ => []
  | f + 1, n => if n < 10 then [digitChar n]
                else natToCharsAux f (n / 10) ++ [digitChar (n % 10)]

/-- Decimal rendering of a natural number as a string. -/
def natToStr (n : Nat) : String := String.mk (natToCharsAux (n + 1) n)

/-- Numeric value of a decimal digit character. -/
def digitVal (c : Char) : Nat := c.toNat - 48

/-- Parse a string that consists entirely of decimal digits; `none`
otherwise. -/
def parseNat? (s : String) : Option Nat :=
  if !s.data.isEmpty && s.data.all Char.isDigit
  then some (s.data.foldl (fun a c => a * 10 + digitVal c) 0)
  else none

/-- Modelled from the spec: the per-invocation `VariableScope` of `db2.ipynb`
(absent from src/).  Token 0 is the invoked macro's name, `args` are the
positional tokens after it, and `vars` holds named variables set with
`var`. -/
structure Scope where
  macroName : String
  args : List String
  vars : List (String × String)
deriving DecidableEq

/-- Modelled from the spec: `{argc}` — the count of positional tokens,
excluding the macro name itself. -/
def argcOf (sc : Scope) : Nat := sc.args.length

/-- Modelled from the spec: the scope built at macro-invocation time from the
tokenized command line: token 0 becomes the macro name, the remaining tokens
the positional arguments. -/
def mkScope (line : String) : Scope :=
  match tokenize line with
  | [] => ⟨"", [], []⟩
  | t0 :: rest => ⟨t0, rest, []⟩

/-- Lookup of a named variable set by `var` (most recent assignment wins). -/
def lookupVar : List (String × String) → String → Option String
  | [], _ => none
  | (k, v) :: rest, name => if k = name then some v else lookupVar rest name

/-- Space-joined concatenation of a list of strings. -/
def joinSpace (l : List String) : String := String.intercalate " " l

/-- Modelled from the spec: `{n}` — positional token `n` (`{0}` is the
macro name); the literal text `null` is rendered in place when
`n > argc`. -/
def resolvePos (sc : Scope) (n : Nat) : String :=
  if n = 0 then sc.macroName else (sc.args.get? (n - 1)).getD "null"

/-- Modelled from the spec: `{*n}` — the space-joined concatenation of the
tokens from `n` through `argc` inclusive (token 0 being the macro name);
the empty string if none exist. -/
def resolveStar (sc : Scope) (n : Nat) : String :=
  joinSpace ((sc.macroName :: sc.args).drop n)

/-- Modelled from the spec: `{name}` — the named variable's value, the
literal text `null` if it was never set. -/
def resolveNamed (sc : Scope) (name : String) : String :=
  (lookupVar sc.vars name).getD "null"

/-- Modelled from the spec: resolution of a brace reference without the `^`
modifier, dispatching on the shape of the name. -/
def resolveBase (sc : Scope) (name : String) : String :=
  if name = "argc" then natToStr sc.args.length
  else
    match parseNat? name with
    | some n => resolvePos sc n
    | none =>
        match name.data with
        | c :: restChars =>
            if c = '*' then
              match parseNat? (String.mk restChars) with
              | some n => resolveStar sc n
              | none => "null"
            else resolveNamed sc name
        | [] => "null"

/-- Modelled from the spec: resolution of a brace variable reference,
including the `{^…}` modifier which upper-cases the resolved value. -/
def resolve (sc : Scope) (name : String) : String :=
  match name.data with
  | c :: restChars =>
      if c = '^' then (resolveBase sc (String.mk restChars)).toUpper
      else resolveBase sc name
  | [] => resolveBase sc name

/-- Modelled from the spec: the single-pass, left-to-right, non-recursive
brace substitution scanner of `db2.ipynb` (absent from src/).  The first
argument is `none` outside a brace reference and `some acc` while collecting
a name (characters in reverse); a substituted value is not rescanned. -/
def substAux (sc : Scope) : Option (List Char) → List Char → List Char
  | none, [] => []
  | none, c :: rest =>
      if c = '{' then substAux sc (some []) rest
      else c :: substAux sc none rest
  | some acc, [] => '{' :: acc.reverse
  | some acc, c :: rest =>
      if c = '}' then (resolve sc (String.mk acc.reverse)).data ++ substAux sc none rest
      else substAux sc (some (c :: acc)) rest

/-- Modelled from the spec: substitution applied to one line of macro text
before emission or display. -/
def substVars (sc : Scope) (s : String) : String :=
  String.mk (substAux sc none s.data)

/-- ASCII lower-casing of a string, character by character. -/
def strLower (s : String) : String := String.mk (s.data.map Char.toLower)

/-- Strip a matching pair of enclosing quotes from a string, if present. -/
def stripQuotes (s : String) : String :=
  match s.data with
  | c :: d :: rest =>
      if isQuoteChar c && ((d :: rest).getLast? == some c)
      then String.mk ((d :: rest).dropLast)
      else s
  | _ => s

/-- Whether a resolved operand counts as the null / empty value when tested
against the `null` keyword. -/
def isNullStr (s : String) : Bool := s == "null" || s == ""

/-- Compare two operand values: numerically when both are decimal numbers,
otherwise as strings. -/
def cmpVal (l r : String) : Ordering :=
  match parseNat? l, parseNat? r with
  | some a, some b => compare a b
  | _, _ => compare l r

/-- Modelled from the spec: evaluation of an `if` condition by `db2.ipynb`
(absent from src/).  The tokens after the `if` keyword are
`lhs op rhs`; both operands are substituted and then have enclosing quotes
stripped before the comparison; a right-hand `null` keyword instead tests
whether the left value is missing (`null`) or empty. -/
def evalCondTokens (sc : Scope) (toks : List String) : Bool :=
  match toks with
  | lhs :: op :: rhs :: _ =>
      if rhs = "null" then
        let l := substVars sc lhs
        if op = "=" || op = "==" then isNullStr l
        else if op = "!=" || op = "<>" then !isNullStr l
        else false
      else
        let l := stripQuotes (substVars sc lhs)
        let r := stripQuotes (substVars sc rhs)
        if op = "=" || op = "==" then l == r
        else if op = "!=" || op = "<>" then !(l == r)
        else if op = "<" then cmpVal l r == Ordering.lt
        else if op = ">" then cmpVal l r == Ordering.gt
        else if op = "<=" || op = "=<" then !(cmpVal l r == Ordering.gt)
        else if op = ">=" || op = "=>" then !(cmpVal l r == Ordering.lt)
        else false
  | _ => false

/-- All frames of the `if` stack are active. -/
def allTrue (l : List Bool) : Bool := l.all id

/-- Modelled from the spec: the expander's per-invocation accumulator —
the (mutable) scope, the SQL generated so far, the messages displayed so
far, the stack of `if` branch-active flags, and the early-termination
marker (`some true` = exited, `some false` = returned). -/
structure ExpAcc where
  sc : Scope
  sql : List String
  msgs : List String
  ifstack : List Bool
  halted : Option Bool
deriving DecidableEq

/-- Modelled from the spec: processing of one macro body line by the
expander of `db2.ipynb` (absent from src/).  A line is classified by its
leading keyword, case-insensitively; a leading `#` is a comment;
`if`/`else`/`endif` bookkeeping is always processed while other lines are
skipped when an enclosing branch is false; `echo` and `exit` display the
substituted remainder of the line; `exit` discards, `return` keeps the SQL
generated so far; `var` assigns a named variable; any other line is
substituted and appended, space-joined, to the SQL buffer. -/
def step (acc : ExpAcc) (line : String) : ExpAcc :=
  if acc.halted.isSome then acc
  else if line.data.head? = some '#' then acc
  else
    match tokenize line with
    | [] => acc
    | t0 :: rest =>
      let kw := strLower t0
      let active := allTrue acc.ifstack
      if kw = "if" then
        { acc with ifstack := (active && evalCondTokens acc.sc rest) :: acc.ifstack }
      else if kw = "else" then
        match acc.ifstack with
        | [] => acc
        | b :: bs => { acc with ifstack := (!b) :: bs }
      else if kw = "endif" then { acc with ifstack := acc.ifstack.tail }
      else if !active then acc
      else if kw = "echo" then
        { acc with msgs := acc.msgs ++ [substVars acc.sc (joinSpace rest)] }
      else if kw = "exit" then
        { acc with
            msgs := acc.msgs ++ (if rest.isEmpty then [] else [substVars acc.sc (joinSpace rest)]),
            halted := some true }
      else if kw = "return" then { acc with halted := some false }
      else if kw = "var" then
        match rest with
        | [] => acc
        | vname :: vrest =>
            { acc with sc := { acc.sc with vars := (vname, substVars acc.sc (joinSpace vrest)) :: acc.sc.vars } }
      else { acc with sql := acc.sql ++ [substVars acc.sc (joinSpace (t0 :: rest))] }

/-- The expander's starting accumulator for a fresh invocation. -/
def initAcc (sc : Scope) : ExpAcc := ⟨sc, [], [], [], none⟩

/-- Modelled from the spec: the result of expanding a macro body — the
generated SQL lines (empty when the macro exited), the displayed messages,
and whether the macro terminated with `exit`. -/
structure ExpOut where
  sql : List String
  msgs : List String
  exited : Bool
deriving DecidableEq

/-- Modelled from the spec: run a macro body against a scope.  Reaching the
end of the body without `return`/`exit` is an implicit `return`; `exit`
discards all SQL generated so far. -/
def expandBody (body : List String) (sc : Scope) : ExpOut :=
  let acc := body.foldl step (initAcc sc)
  { sql := if acc.halted = some true then [] else acc.sql,
    msgs := acc.msgs,
    exited := acc.halted = some true }

/-- The generated SQL of an expansion as one space-joined statement. -/
def sqlTextOf (o : ExpOut) : String := joinSpace o.sql

/-- Modelled from the spec: the state of the `?*N` shorthand scanner of
`db2.ipynb` (absent from src/): outside any marker, after a `?`, after
`?*`, or inside the digits of a `?*N` group. -/
inductive QState
  | normal
  | sawQ
  | sawQS
  | digits (acc : Nat)
deriving DecidableEq

/-- The comma-separated tail `,?,?,…` with `n` further placeholders. -/
def qmarksTail : Nat → List Char
  | 0 => []
  | n + 1 => ',' :: '?' :: qmarksTail n

/-- `n` comma-separated `?` placeholders. -/
def qmarks : Nat → List Char
  | 0 => []
  | n + 1 => '?' :: qmarksTail n

/-- The literal characters a pending scanner state stands for when it is
resolved as plain text (end of input, or next character breaks the
pattern). -/
def flushQ : QState → List Char
  | QState.normal => []
  | QState.sawQ => ['?']
  | QState.sawQS => ['?', '*']
  | QState.digits acc => qmarks acc

/-- Modelled from the spec: the `?*N` shorthand expansion of `db2.ipynb`
(absent from src/).  Inside a PREPARE body every `?*N` group (`N` read as a
decimal number) is replaced by `N` comma-separated `?` placeholders before
the text is sent for preparation; all other characters pass through. -/
def expandQAux : QState → List Char → List Char
  | st, [] => flushQ st
  | QState.normal, c :: rest =>
      if c = '?' then expandQAux QState.sawQ rest
      else c :: expandQAux QState.normal rest
  | QState.sawQ, c :: rest =>
      if c = '*' then expandQAux QState.sawQS rest
      else if c = '?' then '?' :: expandQAux QState.sawQ rest
      else '?' :: c :: expandQAux QState.normal rest
  | QState.sawQS, c :: rest =>
      if c.isDigit then expandQAux (QState.digits (digitVal c)) rest
      else if c = '?' then '?' :: '*' :: expandQAux QState.sawQ rest
      else '?' :: '*' :: c :: expandQAux QState.normal rest
  | QState.digits acc, c :: rest =>
      if c.isDigit then expandQAux (QState.digits (acc * 10 + digitVal c)) rest
      else if c = '?' then qmarks acc ++ expandQAux QState.sawQ rest
      else qmarks acc ++ c :: expandQAux QState.normal rest

/-- Count of `?` placeholder characters. -/
def countQ : List Char → Nat
  | [] => 0
  | c :: rest => (if c = '?' then 1 else 0) + countQ rest

/-- Modelled from the spec: the `parameterCount` of a prepared statement —
the number of `?` placeholders in the statement text after `?*N`
expansion. -/
def paramCountStr (s : String) : Nat := countQ (expandQAux QState.normal s.data)

/-- Abstract segments of a PREPARE body: a literal character, a bare `?`
placeholder, or a `?*N` group carrying the digit characters of `N`. -/
inductive PSeg
  | lit (c : Char)
  | bare
  | group (ds : List Char)
deriving DecidableEq

/-- The source text of a segment. -/
def renderSeg : PSeg → List Char
  | PSeg.lit c => [c]
  | PSeg.bare => ['?']
  | PSeg.group ds => '?' :: '*' :: ds

/-- The numeric value of a digit-character list. -/
def digitsOf (ds : List Char) : Nat := ds.foldl (fun a c => a * 10 + digitVal c) 0

/-- What a segment expands to: literals pass through, a bare `?` stays, a
`?*N` group becomes `N` comma-separated `?` placeholders. -/
def expandSeg : PSeg → List Char
  | PSeg.lit c => [c]
  | PSeg.bare => ['?']
  | PSeg.group ds => qmarks (digitsOf ds)

/-- The number of parameter slots a segment contributes. -/
def weight : PSeg → Nat
  | PSeg.lit _ => 0
  | PSeg.bare => 1
  | PSeg.group ds => digitsOf ds

/-- The first source character of a segment. -/
def headCharSeg : PSeg → Char
  | PSeg.lit c => c
  | PSeg.bare => '?'
  | PSeg.group _ => '?'

/-- An individually well-formed segment: a literal is not itself a `?`, and
a group's digits form a positive decimal number. -/
def segOkB : PSeg → Bool
  | PSeg.lit c => !(c = '?')
  | PSeg.bare => true
  | PSeg.group ds => !ds.isEmpty && ds.all Char.isDigit && decide (1 ≤ digitsOf ds)

/-- A well-formed segment boundary: text after a bare `?` may not start
with `*` (which would begin a group), and text after a group may not start
with a digit (which would extend the group's number). -/
def sepOkB : PSeg → PSeg → Bool
  | PSeg.lit _, _ => true
  | PSeg.bare, s2 => !(headCharSeg s2 = '*')
  | PSeg.group _, s2 => !(headCharSeg s2).isDigit

/-- A well-formed segment list: every segment well formed and every
consecutive boundary unambiguous. -/
def wfSegs : List PSeg → Bool
  | [] => true
  | [s] => segOkB s
  | s :: s2 :: rest => segOkB s && sepOkB s s2 && wfSegs (s2 :: rest)

/-- Modelled from the spec: the session-wide prepared-statement table of
`db2.ipynb` (absent from src/) — the live handles with their parameter
counts, the next fresh handle, and a count of driver execute calls (used to
state that an error aborts before any driver call). -/
structure Session where
  prepared : List (Nat × Nat)
  nextHandle : Nat
  driverCalls : Nat
deriving DecidableEq

/-- Lookup of a live prepared-statement handle. -/
def lookupPrep : List (Nat × Nat) → Nat → Option Nat
  | [], _ => none
  | (k, v) :: rest, h => if k = h then some v else lookupPrep rest h

/-- Modelled from the spec: `PREPARE` — expand `?*N` shorthand, count the
placeholders, record a fresh live handle and return it; never executes. -/
def prepareCmd (s : Session) (text : String) : Session × Nat :=
  ({ prepared := (s.nextHandle, paramCountStr text) :: s.prepared,
     nextHandle := s.nextHandle + 1,
     driverCalls := s.driverCalls }, s.nextHandle)

/-- Modelled from the spec: `COMMIT [WORK|HOLD]` — a commit without HOLD
closes all open statements, invalidating every prepared handle; `COMMIT
HOLD` keeps them alive. -/
def commitCmd (s : Session) (hold : Bool) : Session :=
  if hold then s else { s with prepared := [] }

/-- Modelled from the spec: `ROLLBACK` — always invalidates open
statements. -/
def rollbackCmd (s : Session) : Session := { s with prepared := [] }

/-- Modelled from the spec: one argument of an `EXECUTE … USING` list —
either a scalar value or an ordered container that is flattened in place. -/
inductive ExecArg
  | scalar (v : String)
  | container (vs : List String)
deriving DecidableEq

/-- The number of parameter slots one `USING` argument consumes. -/
def flatSize : ExecArg → Nat
  | ExecArg.scalar _ => 1
  | ExecArg.container vs => vs.length

/-- The flattened count of a `USING` argument list. -/
def flatCount (args : List ExecArg) : Nat := (args.map flatSize).sum

/-- The statically detected command errors of the dispatch protocol. -/
inductive CmdError
  | UnknownStatementHandle
  | ParameterCountMismatch
deriving DecidableEq

/-- Modelled from the spec: `EXECUTE :handle USING …` — fails with
`UnknownStatementHandle` if the handle is not live, with
`ParameterCountMismatch` if the flattened argument count differs from the
statement's parameter count; both checks happen before the driver call, so
on error the session (including `driverCalls`) is returned unchanged. -/
def executeCmd (s : Session) (h : Nat) (args : List ExecArg) : Session × Option CmdError :=
  match lookupPrep s.prepared h with
  | none => (s, some CmdError.UnknownStatementHandle)
  | some pc =>
      if flatCount args = pc
      then ({ s with driverCalls := s.driverCalls + 1 }, none)
      else (s, some CmdError.ParameterCountMismatch)

/-- What the dispatcher ultimately asks of the outside world: send plain SQL
text to the driver, or perform a stored-procedure call. -/
inductive Action
  | driverSql (sql : String)
  | procCall (text : String)
deriving DecidableEq

/-- Whether an action is a stored-procedure call. -/
def isProcCall : Action → Bool
  | Action.procCall _ => true
  | _ => false

/-- No action in the list is a stored-procedure call. -/
def noCalls (l : List Action) : Bool := l.all (fun a => !isProcCall a)

/-- Lookup of a registered macro, case-insensitive on the name. -/
def regLookup : List (String × List String) → String → Option (List String)
  | [], _ => none
  | (k, b) :: rest, name => if strLower k = strLower name then some b else regLookup rest name

/-- Modelled from the spec: the single-statement (`%sql`) dispatcher of
`db2.ipynb` (absent from src/), restricted to the classification steps the
macro/CALL routing claims are about: a leading `CALL` keyword performs a
stored-procedure call; a first token matching a registered macro invokes the
expander on a scope built from the tokenized line and re-dispatches the
generated text directly as plain SQL (never as another macro or CALL);
anything else is plain SQL. -/
def dispatch (reg : List (String × List String)) (line : String) : List Action :=
  match tokenize line with
  | [] => []
  | t0 :: _ =>
      if strLower t0 = "call" then [Action.procCall line]
      else
        match regLookup reg t0 with
        | some body =>
            let out := expandBody body (mkScope line)
            if out.exited then [] else [Action.driverSql (sqlTextOf out)]
        | none => [Action.driverSql line]

/-- Modelled from the spec: dispatch of one statement inside a
multi-statement (`%%sql`) block.  `CALL` is supported in a `%sql` statement
only and cannot be used as part of a block, so the block dispatcher has no
stored-procedure branch: a statement is either a macro invocation (expanded
to plain SQL) or plain SQL forwarded to the driver. -/
def dispatchInBlock (reg : List (String × List String)) (line : String) : List Action :=
  match tokenize line with
  | [] => []
  | t0 :: _ =>
      match regLookup reg t0 with
      | some body =>
          let out := expandBody body (mkScope line)
          if out.exited then [] else [Action.driverSql (sqlTextOf out)]
      | none => [Action.driverSql line]

/-- Modelled from the spec: a multi-statement block is dispatched statement
by statement. -/
def dispatchBlock (reg : List (String × List String)) : List String → List Action
  | [] => []
  | l :: rest => dispatchInBlock reg l ++ dispatchBlock reg rest

/-- The tokenizer test line of the spec, with quote characters spelled by
code point. -/
def c7Input : String :=
  "LIST 1234 " ++ String.mk [dq] ++ "Here" ++ String.mk [sq] ++ "s a string"
    ++ String.mk [dq] ++ " AbCD-12 " ++ String.mk [sq] ++ "String" ++ String.mk [sq]

/-- The double-quoted constant `"1"` used in an `if` condition. -/
def quotedOne : String := String.mk [dq, '1', dq]

/-- The segment form of the statement tail `(?*3,?*7)`. -/
def c2Segs : List PSeg :=
  [PSeg.lit '(', PSeg.group ['3'], PSeg.lit ',', PSeg.group ['7'], PSeg.lit ')']

/-- A scope for an argument-less invocation of the `showexit` macro. -/
def c5Scope : Scope := ⟨"showexit", [], []⟩

/-- A registry with two macros, the body of one naming the other. -/
def c8Reg : List (String × List String) := [("inner", ["SELECT 1"]), ("outer", ["inner x"])]

/-! ### Helper lemmas: decimal rendering and parsing -/

theorem digitChar_isDigit (m : Nat) : (digitChar m).isDigit = true := by
  unfold digitChar
  split <;> decide

theorem digitVal_digitChar (m : Nat) (h : m < 10) : digitVal (digitChar m) = m := by
  interval_cases m <;> decide

theorem digit_ne {c d : Char} (hc : c.isDigit = true) (hd : d.isDigit = false) : c ≠ d := by
  intro h
  rw [h, hd] at hc
  exact Bool.false_ne_true hc

theorem natToCharsAux_digits :
    ∀ f n, n < f → ∀ c ∈ natToCharsAux f n, c.isDigit = true := by
  intro f
  induction f with
  | zero => intro n hn; omega
  | succ f ih =>
    intro n hn c hc
    unfold natToCharsAux at hc
    by_cases h10 : n < 10
    · rw [if_pos h10] at hc
      rcases List.mem_singleton.mp hc with rfl
      exact digitChar_isDigit n
    · rw [if_neg h10] at hc
      rcases List.mem_append.mp hc with h | h
      · exact ih (n / 10) (by omega) c h
      · rcases List.mem_singleton.mp h with rfl
        exact digitChar_isDigit (n % 10)

theorem natToCharsAux_ne_nil (f n : Nat) (hf : 0 < f) : natToCharsAux f n ≠ [] := by
  cases f with
  | zero => omega
  | succ f =>
    unfold natToCharsAux
    by_cases h10 : n < 10
    · simp [h10]
    · simp [h10]

theorem natToCharsAux_foldl :
    ∀ f n, n < f → ∀ a,
      (natToCharsAux f n).foldl (fun x c => x * 10 + digitVal c) a
        = a * 10 ^ (natToCharsAux f n).length + n := by
  intro f
  induction f with
  | zero => intro n hn; omega
  | succ f ih =>
    intro n hn a
    unfold natToCharsAux
    by_cases h10 : n < 10
    · rw [if_pos h10]
      simp [digitVal_digitChar n h10]
    · rw [if_neg h10]
      rw [List.foldl_append, List.length_append]
      rw [ih (n / 10) (by omega) a]
      simp only [List.foldl_cons, List.foldl_nil, List.length_singleton]
      rw [digitVal_digitChar (n % 10) (Nat.mod_lt n (by omega))]
      have hmod : 10 * (n / 10) + n % 10 = n := Nat.div_add_mod n 10
      calc (a * 10 ^ (natToCharsAux f (n / 10)).length + n / 10) * 10 + n % 10
          = a * 10 ^ ((natToCharsAux f (n / 10)).length + 1) + (10 * (n / 10) + n % 10) := by ring
        _ = a * 10 ^ ((natToCharsAux f (n / 10)).length + 1) + n := by rw [hmod]

theorem parseNat?_natToStr (n : Nat) : parseNat? (natToStr n) = some n := by
  have h1 : (natToCharsAux (n + 1) n).isEmpty = false := by
    cases hc : natToCharsAux (n + 1) n with
    | nil => exact absurd hc (natToCharsAux_ne_nil _ _ (Nat.succ_pos n))
    | cons a l => rfl
  have h2 : (natToCharsAux (n + 1) n).all Char.isDigit = true := by
    rw [List.all_eq_true]
    intro c hc
    exact natToCharsAux_digits _ _ (Nat.lt_succ_self n) c hc
  have h3 := natToCharsAux_foldl (n + 1) n (Nat.lt_succ_self n) 0
  simp only [natToStr, parseNat?, h1, h2, Bool.not_false, Bool.and_self, if_true]
  simp [h3]

theorem natToStr_inj {a b : Nat} (h : natToStr a = natToStr b) : a = b := by
  have := parseNat?_natToStr a
  rw [h, parseNat?_natToStr b] at this
  exact (Option.some.inj this).symm

theorem natToStr_data (n : Nat) : (natToStr n).data = natToCharsAux (n + 1) n := rfl

theorem natToStr_head_digit (n : Nat) :
    ∃ c t, (natToStr n).data = c :: t ∧ c.isDigit = true := by
  cases hc : (natToStr n).data with
  | nil =>
    rw [natToStr_data] at hc
    exact absurd hc (natToCharsAux_ne_nil _ _ (Nat.succ_pos n))
  | cons c t =>
    refine ⟨c, t, rfl, ?_⟩
    apply natToCharsAux_digits (n + 1) n (Nat.lt_succ_self n)
    rw [← natToStr_data, hc]
    exact List.mem_cons_self _ _

theorem strMk_data (s : String) : String.mk s.data = s := rfl

theorem natToStr_beq_one (n : Nat) : (natToStr n == "1") = (n == 1) := by
  by_cases h : n = 1
  · subst h; decide
  · have h1 : natToStr n ≠ "1" := fun hh => h (natToStr_inj (hh.trans rfl))
    simp [beq_iff_eq, h, h1]

theorem isQuoteChar_of_digit {c : Char} (hc : c.isDigit = true) : isQuoteChar c = false := by
  have hdq : c ≠ dq := digit_ne hc (by decide)
  have hsq : c ≠ sq := digit_ne hc (by decide)
  simp [isQuoteChar, hdq, hsq]

theorem stripQuotes_of_digit_head {s : String} {c : Char} {t : List Char}
    (hdata : s.data = c :: t) (hc : c.isDigit = true) : stripQuotes s = s := by
  unfold stripQuotes
  rw [hdata]
  cases t with
  | nil => rfl
  | cons d rest => simp [isQuoteChar_of_digit hc]

theorem stripQuotes_natToStr (n : Nat) : stripQuotes (natToStr n) = natToStr n := by
  obtain ⟨c, t, hdata, hc⟩ := natToStr_head_digit n
  exact stripQuotes_of_digit_head hdata hc

/-! ### Helper lemmas: the substitution scanner -/

theorem substAux_collect (sc : Scope) :
    ∀ (nm : List Char) (acc rest : List Char), (∀ c ∈ nm, c ≠ '}') →
      substAux sc (some acc) (nm ++ '}' :: rest)
        = (resolve sc (String.mk (acc.reverse ++ nm))).data ++ substAux sc none rest := by
  intro nm
  induction nm with
  | nil =>
    intro acc rest _
    simp [substAux]
  | cons c nm' ih =>
    intro acc rest h
    have hc : c ≠ '}' := h c (List.mem_cons_self _ _)
    simp only [List.cons_append, substAux, if_neg hc, List.append_eq]
    rw [ih (c :: acc) rest (fun d hd => h d (List.mem_cons_of_mem _ hd))]
    rw [List.reverse_cons, List.append_assoc, List.singleton_append]

theorem substAux_brace (sc : Scope) (nm rest : List Char) (h : ∀ c ∈ nm, c ≠ '}') :
    substAux sc none ('{' :: (nm ++ '}' :: rest))
      = (resolve sc (String.mk nm)).data ++ substAux sc none rest := by
  have h0 : substAux sc none ('{' :: (nm ++ '}' :: rest))
      = substAux sc (some []) (nm ++ '}' :: rest) := by
    simp [substAux]
  rw [h0, substAux_collect sc nm [] rest h]
  rfl

/-! ### Helper lemmas: brace-reference resolution -/

theorem resolve_argc (sc : Scope) : resolve sc "argc" = natToStr sc.args.length := rfl

theorem resolve_of_digit_head {name : String} {c : Char} {t : List Char} (sc : Scope)
    (hdata : name.data = c :: t) (hc : c.isDigit = true) :
    resolve sc name = resolveBase sc name := by
  unfold resolve
  rw [hdata]
  have : c ≠ '^' := digit_ne hc (by decide)
  simp [this]

theorem natToStr_ne_argc (n : Nat) : natToStr n ≠ "argc" := by
  intro h
  have hd := congrArg String.data h
  have hmem : 'a' ∈ (natToStr n).data := by rw [hd]; decide
  have := natToCharsAux_digits (n + 1) n (Nat.lt_succ_self n) 'a' hmem
  exact absurd this (by decide)

theorem resolveBase_pos (sc : Scope) {name : String} {n : Nat}
    (hne : name ≠ "argc") (hp : parseNat? name = some n) :
    resolveBase sc name = resolvePos sc n := by
  unfold resolveBase
  rw [if_neg hne, hp]

theorem resolve_natToStr_overflow (sc : Scope) {n : Nat} (h : argcOf sc < n) :
    resolve sc (natToStr n) = "null" := by
  obtain ⟨c, t, hdata, hc⟩ := natToStr_head_digit n
  rw [resolve_of_digit_head sc hdata hc]
  rw [resolveBase_pos sc (natToStr_ne_argc n) (parseNat?_natToStr n)]
  unfold resolvePos
  have hn0 : n ≠ 0 := by unfold argcOf at h; omega
  rw [if_neg hn0]
  have hnone : sc.args.get? (n - 1) = none := by
    rw [List.get?_eq_none]
    unfold argcOf at h
    omega
  rw [hnone]
  rfl

theorem star_data (n : Nat) : (String.mk ('*' :: (natToStr n).data)).data = '*' :: (natToStr n).data := rfl

theorem starName_ne_argc (n : Nat) : String.mk ('*' :: (natToStr n).data) ≠ "argc" := by
  intro h
  have hd := congrArg String.data h
  rw [star_data] at hd
  have ha : "argc".data = 'a' :: ['r', 'g', 'c'] := rfl
  rw [ha] at hd
  injection hd with h1 _
  exact absurd h1 (by decide)

theorem parseNat?_starName (n : Nat) : parseNat? (String.mk ('*' :: (natToStr n).data)) = none := by
  unfold parseNat?
  rw [if_neg]
  intro h
  have hall := (Bool.and_eq_true _ _).mp h |>.2
  rw [List.all_eq_true] at hall
  have := hall '*' (List.mem_cons_self _ _)
  exact absurd this (by decide)

theorem resolve_of_head {name : String} {c : Char} {t : List Char} (sc : Scope)
    (hdata : name.data = c :: t) (hne : c ≠ '^') :
    resolve sc name = resolveBase sc name := by
  unfold resolve
  rw [hdata]
  simp [hne]

theorem resolveBase_star (sc : Scope) {name : String} {ds : List Char} {n : Nat}
    (hne : name ≠ "argc") (hp : parseNat? name = none) (hdata : name.data = '*' :: ds)
    (hp2 : parseNat? (String.mk ds) = some n) :
    resolveBase sc name = resolveStar sc n := by
  unfold resolveBase
  rw [if_neg hne, hp, hdata]
  simp [hp2]

theorem resolve_star_overflow (sc : Scope) {n : Nat} (h : argcOf sc < n) :
    resolve sc (String.mk ('*' :: (natToStr n).data)) = "" := by
  rw [resolve_of_head sc (star_data n) (by decide)]
  rw [resolveBase_star sc (starName_ne_argc n) (parseNat?_starName n) (star_data n)
      (by rw [strMk_data]; exact parseNat?_natToStr n)]
  unfold resolveStar
  have hdrop : (sc.macroName :: sc.args).drop n = [] := by
    rw [List.drop_eq_nil_iff]
    simp only [List.length_cons]
    unfold argcOf at h
    omega
  rw [hdrop]
  rfl

/-! ### Helper lemmas: the macro expander -/

theorem step_of_halted (acc : ExpAcc) (line : String) (h : acc.halted.isSome = true) :
    step acc line = acc := by
  unfold step
  rw [if_pos h]

theorem foldl_step_halted :
    ∀ (ls : List String) (acc : ExpAcc), acc.halted.isSome = true → ls.foldl step acc = acc := by
  intro ls
  induction ls with
  | nil => intro acc _; rfl
  | cons l rest ih =>
    intro acc h
    rw [List.foldl_cons, step_of_halted acc l h]
    exact ih acc h

theorem step_exit {acc : ExpAcc} {line : String} {msgToks : List String}
    (hh : acc.halted = none) (hc : line.data.head? ≠ some '#')
    (ht : tokenize line = "exit" :: msgToks) (ha : allTrue acc.ifstack = true)
    (hm : msgToks ≠ []) :
    step acc line
      = { acc with msgs := acc.msgs ++ [substVars acc.sc (joinSpace msgToks)],
                   halted := some true } := by
  unfold step
  rw [hh, if_neg (by decide : ¬((none : Option Bool).isSome = true)), if_neg hc, ht]
  have hme : msgToks.isEmpty = false := by
    cases msgToks with
    | nil => exact absurd rfl hm
    | cons a l => rfl
  simp [show strLower "exit" = "exit" from rfl, ha, hme]

theorem step_return {acc : ExpAcc} {line : String} {rest : List String}
    (hh : acc.halted = none) (hc : line.data.head? ≠ some '#')
    (ht : tokenize line = "return" :: rest) (ha : allTrue acc.ifstack = true) :
    step acc line = { acc with halted := some false } := by
  unfold step
  rw [hh, if_neg (by decide : ¬((none : Option Bool).isSome = true)), if_neg hc, ht]
  simp [show strLower "return" = "return" from rfl, ha]

/-! ### Helper lemmas: the `?*N` shorthand scanner -/

theorem countQ_append : ∀ l1 l2 : List Char, countQ (l1 ++ l2) = countQ l1 + countQ l2 := by
  intro l1 l2
  induction l1 with
  | nil => simp [countQ]
  | cons c rest ih =>
    simp only [List.cons_append, countQ, List.append_eq, ih]
    omega

theorem countQ_qmarksTail : ∀ n, countQ (qmarksTail n) = n := by
  intro n
  induction n with
  | zero => rfl
  | succ n ih =>
    simp [qmarksTail, countQ, ih]
    omega

theorem countQ_qmarks (n : Nat) : countQ (qmarks n) = n := by
  cases n with
  | zero => rfl
  | succ n =>
    simp [qmarks, countQ, countQ_qmarksTail]
    omega

/-- The head of a list does not begin (or extend) a `?*N` digit group. -/
def headNotDigit : List Char → Prop
  | [] => True
  | c :: _ => c.isDigit = false

/-- The head of a list does not turn a preceding bare `?` into a group. -/
def headNotStar : List Char → Prop
  | [] => True
  | c :: _ => c ≠ '*'

theorem expandQAux_sawQ (l : List Char) (h : headNotStar l) :
    expandQAux QState.sawQ l = '?' :: expandQAux QState.normal l := by
  cases l with
  | nil => rfl
  | cons c rest =>
    by_cases hq : c = '?'
    · subst hq
      simp [expandQAux]
    · have hs : ¬(c = '*') := h
      simp [expandQAux, hs, hq]

theorem expandQAux_digits (acc : Nat) (l : List Char) (h : headNotDigit l) :
    expandQAux (QState.digits acc) l = qmarks acc ++ expandQAux QState.normal l := by
  cases l with
  | nil => simp [expandQAux, flushQ]
  | cons c rest =>
    have hd : c.isDigit = false := h
    by_cases hq : c = '?'
    · subst hq
      simp [expandQAux, hd]
    · simp [expandQAux, hd, hq]

theorem expandQAux_normal_q (l : List Char) :
    expandQAux QState.normal ('?' :: l) = expandQAux QState.sawQ l := rfl

theorem expandQAux_sawQ_star (l : List Char) :
    expandQAux QState.sawQ ('*' :: l) = expandQAux QState.sawQS l := rfl

theorem expandQAux_sawQS_digit {d : Char} (hd : d.isDigit = true) (l : List Char) :
    expandQAux QState.sawQS (d :: l) = expandQAux (QState.digits (digitVal d)) l := by
  show (if d.isDigit = true then expandQAux (QState.digits (digitVal d)) l
        else if d = '?' then '?' :: '*' :: expandQAux QState.sawQ l
        else '?' :: '*' :: d :: expandQAux QState.normal l)
      = expandQAux (QState.digits (digitVal d)) l
  rw [if_pos hd]

theorem expandQAux_digits_digit (acc : Nat) {d : Char} (hd : d.isDigit = true) (l : List Char) :
    expandQAux (QState.digits acc) (d :: l)
      = expandQAux (QState.digits (acc * 10 + digitVal d)) l := by
  show (if d.isDigit = true then expandQAux (QState.digits (acc * 10 + digitVal d)) l
        else if d = '?' then qmarks acc ++ expandQAux QState.sawQ l
        else qmarks acc ++ d :: expandQAux QState.normal l)
      = expandQAux (QState.digits (acc * 10 + digitVal d)) l
  rw [if_pos hd]

theorem expandQAux_digits_run :
    ∀ (ds : List Char), (∀ c ∈ ds, c.isDigit = true) →
      ∀ (acc : Nat) (l : List Char), headNotDigit l →
        expandQAux (QState.digits acc) (ds ++ l)
          = qmarks (ds.foldl (fun a c => a * 10 + digitVal c) acc) ++ expandQAux QState.normal l := by
  intro ds
  induction ds with
  | nil =>
    intro _ acc l hl
    simpa using expandQAux_digits acc l hl
  | cons d ds' ih =>
    intro hds acc l hl
    have hd : d.isDigit = true := hds d (List.mem_cons_self _ _)
    rw [List.cons_append, expandQAux_digits_digit acc hd]
    rw [ih (fun c hc => hds c (List.mem_cons_of_mem _ hc)) _ l hl]
    rfl

/-- The first rendered character of a segment is its `headCharSeg`. -/
theorem renderSeg_head : ∀ s : PSeg, ∃ t, renderSeg s = headCharSeg s :: t := by
  intro s
  cases s with
  | lit c => exact ⟨[], rfl⟩
  | bare => exact ⟨[], rfl⟩
  | group ds => exact ⟨'*' :: ds, rfl⟩

/-- The source text of a well-formed segment list. -/
def renderSegs (segs : List PSeg) : List Char := segs.foldr (fun s acc => renderSeg s ++ acc) []

/-- The expanded text of a segment list. -/
def expandSegs (segs : List PSeg) : List Char := segs.foldr (fun s acc => expandSeg s ++ acc) []

theorem renderSegs_cons (s : PSeg) (rest : List PSeg) :
    renderSegs (s :: rest) = renderSeg s ++ renderSegs rest := rfl

theorem expandSegs_cons (s : PSeg) (rest : List PSeg) :
    expandSegs (s :: rest) = expandSeg s ++ expandSegs rest := rfl

/-- The boundary condition `sepOkB` on the rendering of the remaining
segments: the rendered text of the tail cannot extend the previous
segment's pattern. -/
theorem boundary_of_sepOk_star :
    ∀ rest : List PSeg, (∀ s2 t, rest = s2 :: t → !(headCharSeg s2 = '*')) →
      headNotStar (renderSegs rest) := by
  intro rest h
  cases rest with
  | nil => trivial
  | cons s2 t =>
    obtain ⟨t2, ht2⟩ := renderSeg_head s2
    rw [renderSegs_cons, ht2]
    have := h s2 t rfl
    simp only [Bool.not_eq_true', decide_eq_false_iff_not] at this
    exact this

theorem boundary_of_sepOk_digit :
    ∀ rest : List PSeg, (∀ s2 t, rest = s2 :: t → !(headCharSeg s2).isDigit) →
      headNotDigit (renderSegs rest) := by
  intro rest h
  cases rest with
  | nil => trivial
  | cons s2 t =>
    obtain ⟨t2, ht2⟩ := renderSeg_head s2
    rw [renderSegs_cons, ht2]
    have := h s2 t rfl
    simp only [Bool.not_eq_true'] at this
    exact this

theorem expandQAux_segs :
    ∀ segs : List PSeg, wfSegs segs = true →
      expandQAux QState.normal (renderSegs segs) = expandSegs segs := by
  intro segs
  induction segs with
  | nil => intro _; rfl
  | cons s rest ih =>
    intro hwf
    have hsep : ∀ s2 t, rest = s2 :: t → sepOkB s s2 = true := by
      intro s2 t ht
      subst ht
      unfold wfSegs at hwf
      exact ((Bool.and_eq_true _ _).mp ((Bool.and_eq_true _ _).mp hwf).1).2
    have hok : segOkB s = true := by
      cases rest with
      | nil => exact hwf
      | cons s2 t =>
        unfold wfSegs at hwf
        exact ((Bool.and_eq_true _ _).mp ((Bool.and_eq_true _ _).mp hwf).1).1
    have hrest : wfSegs rest = true := by
      cases rest with
      | nil => rfl
      | cons s2 t =>
        unfold wfSegs at hwf
        exact ((Bool.and_eq_true _ _).mp hwf).2
    rw [renderSegs_cons, expandSegs_cons, ← ih hrest]
    cases s with
    | lit c =>
      have hc : ¬(c = '?') := by
        unfold segOkB at hok
        simpa using hok
      simp [renderSeg, expandSeg, expandQAux, hc]
    | bare =>
      have hb : headNotStar (renderSegs rest) := by
        apply boundary_of_sepOk_star
        intro s2 t ht
        have := hsep s2 t ht
        unfold sepOkB at this
        simpa using this
      rw [show renderSeg PSeg.bare ++ renderSegs rest = '?' :: renderSegs rest from rfl]
      rw [expandQAux_normal_q, expandQAux_sawQ _ hb]
      rfl
    | group ds =>
      have hone : ds ≠ [] ∧ (∀ c ∈ ds, c.isDigit = true) := by
        unfold segOkB at hok
        have h1 := (Bool.and_eq_true _ _).mp ((Bool.and_eq_true _ _).mp hok).1
        constructor
        · intro hnil
          rw [hnil] at h1
          exact absurd h1.1 (by decide)
        · intro c hc
          have := h1.2
          rw [List.all_eq_true] at this
          exact this c hc
      have hd : headNotDigit (renderSegs rest) := by
        apply boundary_of_sepOk_digit
        intro s2 t ht
        have := hsep s2 t ht
        unfold sepOkB at this
        exact this
      obtain ⟨hne, hdall⟩ := hone
      cases ds with
      | nil => exact absurd rfl hne
      | cons d ds' =>
        have hdd : d.isDigit = true := hdall d (List.mem_cons_self _ _)
        rw [show renderSeg (PSeg.group (d :: ds')) ++ renderSegs rest
              = '?' :: '*' :: d :: (ds' ++ renderSegs rest) from by
            simp [renderSeg]]
        rw [expandQAux_normal_q, expandQAux_sawQ_star, expandQAux_sawQS_digit hdd]
        rw [expandQAux_digits_run ds' (fun c hc => hdall c (List.mem_cons_of_mem _ hc))
          (digitVal d) _ hd]
        rw [show expandSeg (PSeg.group (d :: ds')) = qmarks (digitsOf (d :: ds')) from rfl]
        unfold digitsOf
        simp [digitVal]

theorem countQ_expandSeg (s : PSeg) (hok : segOkB s = true) : countQ (expandSeg s) = weight s := by
  cases s with
  | lit c =>
    have hc : ¬(c = '?') := by
      unfold segOkB at hok
      simpa using hok
    simp [expandSeg, weight, countQ, hc]
  | bare => rfl
  | group ds => simp [expandSeg, weight, countQ_qmarks]

theorem countQ_expandSegs :
    ∀ segs : List PSeg, wfSegs segs = true →
      countQ (expandSegs segs) = (segs.map weight).sum := by
  intro segs
  induction segs with
  | nil => intro _; rfl
  | cons s rest ih =>
    intro hwf
    have hok : segOkB s = true := by
      cases rest with
      | nil => exact hwf
      | cons s2 t =>
        unfold wfSegs at hwf
        exact ((Bool.and_eq_true _ _).mp ((Bool.and_eq_true _ _).mp hwf).1).1
    have hrest : wfSegs rest = true := by
      cases rest with
      | nil => rfl
      | cons s2 t =>
        unfold wfSegs at hwf
        exact ((Bool.and_eq_true _ _).mp hwf).2
    rw [expandSegs_cons, countQ_append, countQ_expandSeg s hok, ih hrest]
    simp

theorem substVars_argc (sc : Scope) : substVars sc "{argc}" = natToStr sc.args.length := by
  show String.mk (substAux sc none "{argc}".data) = _
  have h : "{argc}".data = '{' :: ("argc".data ++ '}' :: []) := rfl
  rw [h, substAux_brace sc _ [] (by decide)]
  rw [show substAux sc none [] = [] from rfl, List.append_nil]
  rw [strMk_data, resolve_argc]

/-! ### The claims -/

/-- C1: for every prepared-statement handle returned by PREPARE, after a
COMMIT without HOLD an EXECUTE against that handle fails with
`UnknownStatementHandle`, while after a COMMIT HOLD the same handle still
executes successfully (given a matching argument count). -/
theorem c1_commit_invalidation :
    ∀ (s : Session) (text : String) (args : List ExecArg),
      (executeCmd (commitCmd (prepareCmd s text).1 false) (prepareCmd s text).2 args).2
          = some CmdError.UnknownStatementHandle
      ∧ (flatCount args = paramCountStr text →
          (executeCmd (commitCmd (prepareCmd s text).1 true) (prepareCmd s text).2 args).2
            = none) := by
  intro s text args
  constructor
  · rfl
  · intro hcount
    have h1 : commitCmd (prepareCmd s text).1 true = (prepareCmd s text).1 := rfl
    rw [h1]
    have hl : lookupPrep (prepareCmd s text).1.prepared (prepareCmd s text).2
        = some (paramCountStr text) := by
      show lookupPrep ((s.nextHandle, paramCountStr text) :: s.prepared) s.nextHandle = _
      unfold lookupPrep
      rw [if_pos rfl]
    unfold executeCmd
    rw [hl]
    simp [hcount]

theorem c1_commit_invalidation_witness :
    (executeCmd (commitCmd (prepareCmd ⟨[], 0, 0⟩ "INSERT INTO X VALUES (?*3,?*7)").1 false)
        (prepareCmd ⟨[], 0, 0⟩ "INSERT INTO X VALUES (?*3,?*7)").2
        (List.replicate 10 (ExecArg.scalar "v"))).2 = some CmdError.UnknownStatementHandle
    ∧ (executeCmd (commitCmd (prepareCmd ⟨[], 0, 0⟩ "INSERT INTO X VALUES (?*3,?*7)").1 true)
        (prepareCmd ⟨[], 0, 0⟩ "INSERT INTO X VALUES (?*3,?*7)").2
        (List.replicate 10 (ExecArg.scalar "v"))).2 = none :=
  ⟨(c1_commit_invalidation ⟨[], 0, 0⟩ "INSERT INTO X VALUES (?*3,?*7)"
      (List.replicate 10 (ExecArg.scalar "v"))).1,
   (c1_commit_invalidation ⟨[], 0, 0⟩ "INSERT INTO X VALUES (?*3,?*7)"
      (List.replicate 10 (ExecArg.scalar "v"))).2 (by decide)⟩

/-- C3: an EXECUTE against a live prepared statement whose flattened
`USING`-argument count differs from the statement's parameter count fails
with `ParameterCountMismatch`, with the session returned unchanged — no
driver call, no partial side effects. -/
theorem c3_parameter_count_mismatch :
    ∀ (s : Session) (h pc : Nat) (args : List ExecArg),
      lookupPrep s.prepared h = some pc →
      flatCount args ≠ pc →
      executeCmd s h args = (s, some CmdError.ParameterCountMismatch) := by
  intro s h pc args hl hne
  unfold executeCmd
  rw [hl]
  simp [hne]

theorem c3_parameter_count_mismatch_witness :
    executeCmd (prepareCmd ⟨[], 0, 0⟩ "INSERT INTO X VALUES (?*3,?*7)").1 0
        (List.replicate 9 (ExecArg.scalar "v"))
      = ((prepareCmd ⟨[], 0, 0⟩ "INSERT INTO X VALUES (?*3,?*7)").1,
         some CmdError.ParameterCountMismatch) :=
  c3_parameter_count_mismatch (prepareCmd ⟨[], 0, 0⟩ "INSERT INTO X VALUES (?*3,?*7)").1 0 10
    (List.replicate 9 (ExecArg.scalar "v")) (by decide) (by decide)

/-- C4: for every macro invocation the scope variable `argc` equals the
number of positional tokens following the macro name, excluding the macro
name itself; `{argc}` resolves to that count. -/
theorem c4_argc_excludes_macro_name :
    ∀ (line name : String) (rest : List String),
      tokenize line = name :: rest →
      argcOf (mkScope line) = rest.length
      ∧ resolve (mkScope line) "argc" = natToStr rest.length := by
  intro line name rest h
  constructor
  · unfold argcOf mkScope
    rw [h]
  · unfold mkScope
    rw [h]
    exact resolve_argc _

theorem c4_argc_excludes_macro_name_witness :
    argcOf (mkScope "showvar hello there everyone") = 3 ∧ argcOf (mkScope "showvar") = 0 :=
  ⟨(c4_argc_excludes_macro_name "showvar hello there everyone" "showvar"
      ["hello", "there", "everyone"] (by decide)).1,
   (c4_argc_excludes_macro_name "showvar" "showvar" [] (by decide)).1⟩

/-- C7: tokenizing `LIST 1234 "Here's a string" AbCD-12 'String'` yields
exactly 5 tokens; the quoted tokens keep their enclosing quotes and their
internal whitespace, and unquoted whitespace is the only separator. -/
theorem c7_tokenize_five_tokens :
    tokenize c7Input
      = ["LIST", "1234",
         String.mk (dq :: "Here".data ++ sq :: "s a string".data ++ [dq]),
         "AbCD-12",
         String.mk (sq :: "String".data ++ [sq])]
    ∧ (tokenize c7Input).length = 5 := by
  constructor
  · decide
  · decide

/-- C2: every `?*N` group of a PREPARE body expands independently to `N`
comma-separated `?` placeholders, so the `parameterCount` is the sum of all
group expansions plus any bare `?`; in particular
`INSERT INTO X VALUES (?*3,?*7)` yields `parameterCount = 10`. -/
theorem c2_shorthand_expansion :
    (∀ segs : List PSeg, wfSegs segs = true →
        expandQAux QState.normal (renderSegs segs) = expandSegs segs
        ∧ countQ (expandQAux QState.normal (renderSegs segs)) = (segs.map weight).sum)
    ∧ paramCountStr "INSERT INTO X VALUES (?*3,?*7)" = 10 := by
  constructor
  · intro segs hwf
    have h1 := expandQAux_segs segs hwf
    refine ⟨h1, ?_⟩
    rw [h1]
    exact countQ_expandSegs segs hwf
  · decide

theorem c2_shorthand_expansion_witness :
    wfSegs c2Segs = true
    ∧ expandQAux QState.normal (renderSegs c2Segs) = expandSegs c2Segs
    ∧ countQ (expandQAux QState.normal (renderSegs c2Segs)) = (c2Segs.map weight).sum :=
  ⟨by decide, (c2_shorthand_expansion.1 c2Segs (by decide)).1,
   (c2_shorthand_expansion.1 c2Segs (by decide)).2⟩

/-- C5: inside any macro body an `exit` line terminates expansion with all
SQL discarded and only the messages displayed so far (plus the exit
message) shown, the remaining lines unprocessed; a `return` line terminates
expansion with the SQL generated so far finalized and the remaining lines
unprocessed. -/
theorem c5_exit_vs_return :
    ∀ (sc : Scope) (body1 body2 : List String) (exitLine : String) (msgToks : List String),
      exitLine.data.head? ≠ some '#' →
      tokenize exitLine = "exit" :: msgToks →
      msgToks ≠ [] →
      (body1.foldl step (initAcc sc)).halted = none →
      allTrue (body1.foldl step (initAcc sc)).ifstack = true →
      expandBody (body1 ++ exitLine :: body2) sc
        = { sql := [],
            msgs := (body1.foldl step (initAcc sc)).msgs
              ++ [substVars (body1.foldl step (initAcc sc)).sc (joinSpace msgToks)],
            exited := true }
      ∧ expandBody (body1 ++ "return" :: body2) sc
        = { sql := (body1.foldl step (initAcc sc)).sql,
            msgs := (body1.foldl step (initAcc sc)).msgs,
            exited := false } := by
  intro sc body1 body2 exitLine msgToks hc ht hm hh ha
  constructor
  · unfold expandBody
    rw [List.foldl_append, List.foldl_cons]
    rw [step_exit hh hc ht ha hm]
    rw [foldl_step_halted body2 _ (by rfl)]
    simp
  · unfold expandBody
    rw [List.foldl_append, List.foldl_cons]
    rw [step_return hh (by decide) (by decide : tokenize "return" = "return" :: []) ha]
    rw [foldl_step_halted body2 _ (by rfl)]
    simp

theorem c5_exit_vs_return_witness :
    expandBody ["echo A", "SELECT * FROM X", "exit msg", "echo B"] c5Scope
      = { sql := [], msgs := ["A", "msg"], exited := true }
    ∧ expandBody ["echo A", "SELECT * FROM X", "return", "echo B"] c5Scope
      = { sql := ["SELECT * FROM X"], msgs := ["A"], exited := false } :=
  have h := c5_exit_vs_return c5Scope ["echo A", "SELECT * FROM X"] ["echo B"] "exit msg" ["msg"]
    (by decide) (by decide) (by decide) (by decide) (by decide)
  ⟨h.1.trans (by decide), h.2.trans (by decide)⟩

/-- C6: during substitution, `{n}` with `n > argc` renders as the literal
text `null` in place and the rest of the line is still processed, while
`{*n}` with no positional tokens from `n` on renders as the empty string
and the rest of the line is still processed; neither aborts expansion. -/
theorem c6_missing_token_nonfatal :
    ∀ (sc : Scope) (n : Nat) (tail : List Char), argcOf sc < n →
      substAux sc none ('{' :: ((natToStr n).data ++ '}' :: tail))
          = "null".data ++ substAux sc none tail
      ∧ substAux sc none ('{' :: (('*' :: (natToStr n).data) ++ '}' :: tail))
          = substAux sc none tail := by
  intro sc n tail h
  have hdig : ∀ c ∈ (natToStr n).data, c ≠ '}' := by
    intro c hc
    exact digit_ne (natToCharsAux_digits (n + 1) n (Nat.lt_succ_self n) c hc) (by decide)
  constructor
  · rw [substAux_brace sc _ tail hdig, strMk_data, resolve_natToStr_overflow sc h]
  · have hstar : ∀ c ∈ '*' :: (natToStr n).data, c ≠ '}' := by
      intro c hc
      rcases List.mem_cons.mp hc with rfl | hc2
      · decide
      · exact hdig c hc2
    rw [substAux_brace sc _ tail hstar, resolve_star_overflow sc h]
    rfl

theorem c6_missing_token_nonfatal_witness :
    argcOf ⟨"showvar", ["hello"], []⟩ < 2
    ∧ substAux ⟨"showvar", ["hello"], []⟩ none ('{' :: ((natToStr 2).data ++ '}' :: ['X']))
        = "null".data ++ substAux ⟨"showvar", ["hello"], []⟩ none ['X']
    ∧ substAux ⟨"showvar", ["hello"], []⟩ none ('{' :: (('*' :: (natToStr 2).data) ++ '}' :: ['X']))
        = substAux ⟨"showvar", ["hello"], []⟩ none ['X'] :=
  ⟨by decide,
   (c6_missing_token_nonfatal ⟨"showvar", ["hello"], []⟩ 2 ['X'] (by decide)).1,
   (c6_missing_token_nonfatal ⟨"showvar", ["hello"], []⟩ 2 ['X'] (by decide)).2⟩

/-- C8: macro expansion is never re-entrant — when a command line invokes a
registered macro, the dispatcher emits the macro's generated output as plain
SQL only (the expansion is computed by `expandBody`, which never consults
the registry, so a body token naming another macro is emitted as literal
text), and no stored-procedure call is ever produced. -/
theorem c8_no_reentrant_expansion :
    ∀ (reg : List (String × List String)) (line name : String) (rest body : List String),
      tokenize line = name :: rest →
      strLower name ≠ "call" →
      regLookup reg name = some body →
      dispatch reg line
        = (if (expandBody body (mkScope line)).exited then []
           else [Action.driverSql (sqlTextOf (expandBody body (mkScope line)))])
      ∧ noCalls (dispatch reg line) = true := by
  intro reg line name rest body ht hnc hr
  have hd : dispatch reg line
      = (if (expandBody body (mkScope line)).exited then []
         else [Action.driverSql (sqlTextOf (expandBody body (mkScope line)))]) := by
    unfold dispatch
    rw [ht]
    simp only [if_neg hnc, hr]
  refine ⟨hd, ?_⟩
  rw [hd]
  by_cases he : (expandBody body (mkScope line)).exited
  · rw [if_pos he]
    rfl
  · rw [if_neg he]
    rfl

theorem c8_no_reentrant_expansion_witness :
    dispatch c8Reg "outer" = [Action.driverSql "inner x"]
    ∧ noCalls (dispatch c8Reg "outer") = true :=
  have h := c8_no_reentrant_expansion c8Reg "outer" "outer" [] ["inner x"]
    (by decide) (by decide) (by decide)
  ⟨h.1.trans (by decide), h.2⟩

/-- C10: inside a multi-statement block the dispatcher has no
stored-procedure branch, so no block input ever produces a
stored-procedure call. -/
theorem c10_block_never_calls_procedure :
    ∀ (reg : List (String × List String)) (stmts : List String),
      noCalls (dispatchBlock reg stmts) = true := by
  intro reg stmts
  induction stmts with
  | nil => rfl
  | cons l rest ih =>
    have hin : noCalls (dispatchInBlock reg l) = true := by
      unfold dispatchInBlock
      cases htok : tokenize l with
      | nil => rfl
      | cons t0 ts =>
        cases hr : regLookup reg t0 with
        | some body =>
          by_cases he : (expandBody body (mkScope l)).exited
          · simp [hr, he, noCalls, isProcCall]
          · simp [hr, he, noCalls, isProcCall]
        | none => simp [hr, noCalls, isProcCall]
    show noCalls (dispatchInBlock reg l ++ dispatchBlock reg rest) = true
    unfold noCalls at hin ih ⊢
    rw [List.all_append, hin, ih]
    rfl

/-- C9: an `if` condition strips enclosing quotes from both substituted
operands before comparing, so `if {argc} = "1"` holds exactly when one
token was supplied, and testing a value against the `null` keyword checks
whether it is missing (`null`) or empty. -/
theorem c9_condition_quote_stripping :
    ∀ (sc : Scope) (extra : List String) (lhs rhs : String),
      evalCondTokens sc ("{argc}" :: "=" :: quotedOne :: extra) = (sc.args.length == 1)
      ∧ evalCondTokens sc (lhs :: "<>" :: "null" :: extra) = !isNullStr (substVars sc lhs)
      ∧ (rhs ≠ "null" →
          evalCondTokens sc (lhs :: "=" :: rhs :: extra)
            = (stripQuotes (substVars sc lhs) == stripQuotes (substVars sc rhs))) := by
  intro sc extra lhs rhs
  refine ⟨?_, ?_, ?_⟩
  · have hred : evalCondTokens sc ("{argc}" :: "=" :: quotedOne :: extra)
        = (stripQuotes (substVars sc "{argc}") == stripQuotes (substVars sc quotedOne)) := by
      simp only [evalCondTokens]
      rw [if_neg (show ¬(quotedOne = "null") from by decide)]
      simp
    rw [hred, substVars_argc, stripQuotes_natToStr,
        show stripQuotes (substVars sc quotedOne) = "1" from rfl, natToStr_beq_one]
  · rfl
  · intro hrhs
    simp only [evalCondTokens]
    rw [if_neg hrhs]
    simp

theorem c9_condition_quote_stripping_witness :
    evalCondTokens ⟨"m", ["a"], []⟩ ("{argc}" :: "=" :: quotedOne :: []) = true
    ∧ evalCondTokens ⟨"m", [], []⟩ ("{1}" :: "<>" :: "null" :: []) = false
    ∧ (("x" : String) ≠ "null"
       ∧ evalCondTokens ⟨"m", [], []⟩ ("y" :: "=" :: "x" :: [])
           = (stripQuotes (substVars ⟨"m", [], []⟩ "y")
               == stripQuotes (substVars ⟨"m", [], []⟩ "x"))) :=
  ⟨(c9_condition_quote_stripping ⟨"m", ["a"], []⟩ [] "y" "x").1.trans (by decide),
   (c9_condition_quote_stripping ⟨"m", [], []⟩ [] "{1}" "x").2.1.trans (by decide),
   ⟨by decide, (c9_condition_quote_stripping ⟨"m", [], []⟩ [] "y" "x").2.2 (by decide)⟩⟩

end Db2Spec
